import Mathlib

/-!
Verification development for the Obsidian Telegram Assistant core
(rate limiter, safety gate, group buffer, stream sink, session orchestrator).

Each definition is a shallow embedding of the corresponding function of the
source (src/security.ts, src/session.ts, src/handlers/assistant.ts,
src/handlers/media-group.ts, and the shared streaming callback module).
Configuration values (allowed roots, temp roots, blocked patterns, rate
limits, display length caps) come from a configuration module that is
external plumbing; they appear here as parameters.

JavaScript strings are modelled as Lean `String` / `List Char`; JavaScript
numbers as `ℚ` (exact rational arithmetic in place of IEEE doubles, noted
where it matters); `Map` objects as functions to `Option`; truthiness of
strings and numbers is modelled explicitly (`jsTruthyS`, `jsTruthyN`).
-/

set_option allowUnsafeReducibility true
attribute [local semireducible] Rat.mul Rat.inv Rat.div Rat.add Rat.sub Rat.neg

-- ===================== generic string helpers =====================

/-- Boolean test that `p` is an initial segment of `s` (JS `String.startsWith`). -/
def isPre : List Char → List Char → Bool
  | [], _ => true
  | _ :: _, [] => false
  | a :: as, b :: bs => a = b && isPre as bs

/-- Boolean substring test on character lists (JS `String.includes`);
an empty needle is contained in everything, as in JavaScript. -/
def containsSubL (needle : List Char) : List Char → Bool
  | [] => needle.isEmpty
  | c :: cs => isPre needle (c :: cs) || containsSubL needle cs

/-- Substring test on strings (JS `hay.includes(needle)`). -/
def containsSub (needle hay : String) : Bool :=
  containsSubL needle.data hay.data

/-- JS `String.startsWith` on strings. -/
def startsWithStr (s p : String) : Bool :=
  isPre p.data s.data

/-- Split a character list at every character satisfying `p`, keeping empty
pieces, as JS `String.split` does. `acc` holds the current piece reversed. -/
def splitPredAux (p : Char → Bool) : List Char → List Char → List String
  | acc, [] => [String.mk acc.reverse]
  | acc, c :: cs =>
    if p c then String.mk acc.reverse :: splitPredAux p [] cs
    else splitPredAux p (c :: acc) cs

/-- Split a string at every character satisfying `p`. -/
def splitPred (p : Char → Bool) (s : String) : List String :=
  splitPredAux p [] s.data

/-- JavaScript truthiness of an optional string: `undefined` and `""` are falsy. -/
def jsTruthyS : Option String → Bool
  | none => false
  | some s => !s.isEmpty

/-- JavaScript truthiness of an optional number: `undefined` and `0` are falsy. -/
def jsTruthyN : Option Nat → Bool
  | none => false
  | some n => n != 0

-- ===================== RateLimiter (src/security.ts) =====================

/-- Rate limiter configuration: `RATE_LIMIT_ENABLED`, `RATE_LIMIT_REQUESTS`
(= `maxTokens`) and `RATE_LIMIT_WINDOW` in seconds. -/
structure RLConfig where
  enabled : Bool
  maxTokens : ℚ
  window : ℚ
deriving DecidableEq

/-- `refillRate = RATE_LIMIT_REQUESTS / RATE_LIMIT_WINDOW`, tokens per second. -/
def rlRate (cfg : RLConfig) : ℚ := cfg.maxTokens / cfg.window

/-- One per-identity token bucket (`RateLimitBucket`): a token count and the
last update timestamp in milliseconds. -/
structure Bucket where
  tokens : ℚ
  lastUpdate : ℚ
deriving DecidableEq

/-- Result of one `check` call: the allowed flag and the optional
`retryAfter` value in seconds. -/
structure CheckResult where
  allowed : Bool
  retryAfter : Option ℚ
deriving DecidableEq

/-- `Math.min` on ordered rationals (kept as an explicit conditional so that
it evaluates by kernel reduction). -/
def jsMin (a b : ℚ) : ℚ := if a ≤ b then a else b

/-- The refilled token count: `min(maxTokens, tokens + elapsed * refillRate)`
with `elapsed = (now - lastUpdate) / 1000` (no clamping of a negative delta,
exactly as the source computes it). -/
def refillTokens (cfg : RLConfig) (now : ℚ) (b : Bucket) : ℚ :=
  jsMin cfg.maxTokens (b.tokens + ((now - b.lastUpdate) / 1000) * rlRate cfg)

/-- `RateLimiter.check` on a single identity's bucket. A missing bucket is
created with a full token count. Allowed consumes one token; denied reports
`retryAfter = (1 - tokens) / refillRate`. -/
def checkBucket (cfg : RLConfig) (now : ℚ) (b : Option Bucket) : CheckResult × Bucket :=
  if 1 ≤ refillTokens cfg now (b.getD ⟨cfg.maxTokens, now⟩) then
    (⟨true, none⟩, ⟨refillTokens cfg now (b.getD ⟨cfg.maxTokens, now⟩) - 1, now⟩)
  else
    (⟨false, some ((1 - refillTokens cfg now (b.getD ⟨cfg.maxTokens, now⟩)) / rlRate cfg)⟩,
      ⟨refillTokens cfg now (b.getD ⟨cfg.maxTokens, now⟩), now⟩)

/-- The bucket map of the `RateLimiter` singleton, keyed by user id. -/
def RLState : Type := Nat → Option Bucket

/-- An empty bucket map. -/
def rlInit : RLState := fun _ => none

/-- `RateLimiter.check(userId)`: if rate limiting is disabled return allowed
without touching state, otherwise run the bucket update for that user. -/
def check (cfg : RLConfig) (uid : Nat) (now : ℚ) (st : RLState) : CheckResult × RLState :=
  if cfg.enabled then
    let rb := checkBucket cfg now (st uid)
    (rb.1, fun u => if u = uid then some rb.2 else st u)
  else
    (⟨true, none⟩, st)

/-- Run a sequence of `check` calls against one bucket, returning the list of
allowed flags and the final bucket. -/
def runBucketB (cfg : RLConfig) : List ℚ → Bucket → List Bool × Bucket
  | [], b => ([], b)
  | t :: ts, b =>
    let rb := checkBucket cfg t (some b)
    let rest := runBucketB cfg ts rb.2
    (rb.1.allowed :: rest.1, rest.2)

/-- Run a sequence of `check` calls starting from a possibly-absent bucket. -/
def runBucket (cfg : RLConfig) : List ℚ → Option Bucket → List Bool × Option Bucket
  | [], b => ([], b)
  | t :: ts, b =>
    let rb := checkBucket cfg t b
    let rest := runBucketB cfg ts rb.2
    (rb.1.allowed :: rest.1, some rest.2)

/-- Number of allowed calls, as a rational for arithmetic with token counts. -/
def countQ : List Bool → ℚ
  | [] => 0
  | b :: bs => (if b then 1 else 0) + countQ bs

/-- Token count of an optional bucket, with a default. -/
def tokensEnd (b : Option Bucket) (d : ℚ) : ℚ :=
  match b with
  | none => d
  | some x => x.tokens

/-- A call's token cost: an allowed call consumes one token, a denied call
none. -/
def costOf (r : CheckResult) : ℚ := if r.allowed then 1 else 0

-- ===================== isPathAllowed (src/security.ts) =====================

/-- One step of path normalization: push a segment onto the (reversed) stack,
dropping empty and `.` segments and resolving `..` (against the stack, or
keeping it for a relative path, or dropping it at the root of an absolute
path), as Node's `path.normalize` does. -/
def pushSeg (absolute : Bool) (stack : List String) (seg : String) : List String :=
  if seg = "" || seg = "." then stack
  else if seg = ".." then
    match stack with
    | [] => if absolute then [] else [".."]
    | top :: rest => if top = ".." then ".." :: top :: rest else rest
  else seg :: stack

/-- Node `path.normalize` (posix), without trailing-slash preservation, which
is immaterial here because the result only ever feeds `realpath`/`resolve`,
both of which return canonical paths without trailing slashes. -/
def normalizePath (p : String) : String :=
  let absolute := startsWithStr p "/"
  let segs := ((splitPred (fun c => c = '/') p).foldl (pushSeg absolute) []).reverse
  let body := String.intercalate "/" segs
  if absolute then "/" ++ body
  else if body = "" then "." else body

/-- Node `path.resolve` against a current working directory `cwd`. -/
def resolvePath (cwd p : String) : String :=
  if startsWithStr p "/" then normalizePath p
  else normalizePath (cwd ++ "/" ++ p)

/-- The resolved form of a path as `isPathAllowed` computes it: expand a
leading `~` to `HOME`, normalize, then ask the filesystem for the realpath
(`fs` returns `none` when `realpathSync` would throw, e.g. the path does not
exist), falling back to non-symlink absolute resolution. -/
def resolvedOf (fs : String → Option String) (home cwd path : String) : String :=
  let expanded := if startsWithStr path "~" then home ++ (path.drop 1) else path
  let normalized := normalizePath expanded
  match fs normalized with
  | some r => r
  | none => resolvePath cwd normalized

/-- `isPathAllowed(path)`: allow if the resolved path starts with any temp
root (plain string prefix), or equals any resolved allowed root or has it
plus `/` as a prefix. -/
def isPathAllowed (fs : String → Option String) (home cwd : String)
    (tempPaths allowedPaths : List String) (path : String) : Bool :=
  let resolved := resolvedOf fs home cwd path
  tempPaths.any (fun t => startsWithStr resolved t) ||
  allowedPaths.any (fun a =>
    let ar := resolvePath cwd a
    resolved = ar || startsWithStr resolved (ar ++ "/"))

/-- Modelled from the spec claim's words: containment of a resolved path in a
root means exact equality with the root or having root + `/` as a prefix.
Used to compare the claimed containment discipline with the source's. -/
def specRootContains (root resolved : String) : Bool :=
  resolved = root || startsWithStr resolved (root ++ "/")

/-- A filesystem on which no path has a realpath (nothing exists), so
resolution always takes the non-symlink fallback. -/
def fsNone : String → Option String := fun _ => none

-- ===================== checkCommandSafety (src/security.ts) =====================

/-- `isAuthorized(userId, allowedUsers)`: falsy user id (undefined or 0) is
rejected, an empty allow-list rejects everyone, otherwise membership. -/
def isAuthorized (userId : Option Nat) (allowedUsers : List Nat) : Bool :=
  if !jsTruthyN userId then false
  else if allowedUsers.length = 0 then false
  else allowedUsers.contains (userId.getD 0)

-- ===================== ClaudeSession state machine (src/session.ts) =====================

/-- The cancellation-relevant fields of the `ClaudeSession` singleton. -/
structure SessState where
  isQueryRunning : Bool
  hasAbortController : Bool
  stopRequested : Bool
  isProcessing : Bool
  wasInterruptedByNewMessage : Bool
deriving DecidableEq

/-- Result values of `ClaudeSession.stop()`: `"stopped"`, `"pending"`, `false`. -/
inductive StopResult where
  | stopped
  | pending
  | nothingRunning
deriving DecidableEq

/-- `startProcessing()`: mark the processing flag (the returned release
function clears it again; modelled as the obvious reverse update). -/
def startProcessing (st : SessState) : SessState :=
  { st with isProcessing := true }

/-- `stop()`: abort a running query, or mark a processing turn for
cancellation, or report that nothing is running. -/
def stop (st : SessState) : StopResult × SessState :=
  if st.isQueryRunning && st.hasAbortController then
    (.stopped, { st with stopRequested := true })
  else if st.isProcessing then
    (.pending, { st with stopRequested := true })
  else
    (.nothingRunning, st)

/-- `clearStopRequested()`. -/
def clearStopRequested (st : SessState) : SessState :=
  { st with stopRequested := false }

/-- Outcome of the phase of `sendMessageStreaming` up to the engine call:
either the turn aborts with the `"Query cancelled"` error before the engine
is ever invoked, or the engine is invoked. -/
inductive SendPhase where
  | cancelledBeforeStart (err : String)
  | engineInvoked
deriving DecidableEq

/-- The stop-requested check `sendMessageStreaming` performs immediately
before invoking the engine: if set, clear it and throw `"Query cancelled"`;
otherwise create the abort controller, mark the query running, and proceed
to the engine invocation. -/
def sendPreCheck (st : SessState) : SendPhase × SessState :=
  if st.stopRequested then
    (.cancelledBeforeStart "Query cancelled", { st with stopRequested := false })
  else
    (.engineInvoked,
      { st with isQueryRunning := true, hasAbortController := true, stopRequested := false })

-- ===================== resumeLast (src/session.ts) =====================

/-- The persisted session record (`SessionData`), with optional fields as a
parsed JSON object may lack them. -/
structure SessionData where
  session_id : Option String
  working_dir : Option String
  saved_at : String

/-- The state of the session file as `resumeLast` observes it: zero-size or
absent, unreadable/unparseable (the catch branch), or parsed data. -/
inductive SessionFile where
  | missing
  | unreadable
  | parsed (d : SessionData)

/-- Session id of a parsed session file, `none` otherwise. -/
def sessionIdOf : SessionFile → Option String
  | .parsed d => d.session_id
  | _ => none

/-- `resumeLast()` for a given current working directory: returns the success
flag and the session id adopted on success (`none` when resumption fails).
Failure messages are transport-side and omitted. -/
def resumeLast (workingDir : String) (f : SessionFile) : Bool × Option String :=
  match f with
  | .missing => (false, none)
  | .unreadable => (false, none)
  | .parsed d =>
    if jsTruthyS d.session_id = false then (false, none)
    else if jsTruthyS d.working_dir = true ∧ d.working_dir ≠ some workingDir then (false, none)
    else (true, d.session_id)

-- ===================== StreamSink segment_end (shared streaming callback) =====================

/-- The per-query `StreamingState` restricted to what `segment_end` reads:
the segment id to message id map and the last-rendered-content map. -/
structure StreamingStateM where
  textMessages : Nat → Option Nat
  lastContent : Nat → Option String

/-- One outgoing transport action of the status callback. -/
inductive SinkAction where
  | editMsg (msgId : Nat) (content : String)
  | delMsg (msgId : Nat)
  | sendMsg (content : String)
deriving DecidableEq

/-- Successive slices of length `n` (fuel-driven so that it is structural;
`fuel ≥ cs.length` and `n ≥ 1` make the fuel irrelevant). Mirrors the
source's `for (let i = 0; i < formatted.length; i += TELEGRAM_SAFE_LIMIT)`
chunking loop. -/
def chunksOfAux (n : Nat) : Nat → List Char → List (List Char)
  | 0, _ => []
  | _ + 1, [] => []
  | fuel + 1, c :: cs => (c :: cs).take n :: chunksOfAux n fuel ((c :: cs).drop n)

/-- The chunks of length `n` covering `cs`. -/
def chunksOf (n : Nat) (cs : List Char) : List (List Char) :=
  chunksOfAux n cs.length cs

/-- The `segment_end` branch of the streaming status callback: with a display
unit for the segment and non-empty content, skip when the rendered content is
unchanged, edit the unit in place when the rendered content fits in
`TELEGRAM_MESSAGE_LIMIT`, and otherwise delete the unit and re-send the
content in `TELEGRAM_SAFE_LIMIT`-sized chunks. `render` stands for
`convertMarkdownToHtml`. Returns the emitted transport actions. -/
def segmentEndActions (limit safe : Nat) (render : String → String)
    (st : StreamingStateM) (segmentId : Nat) (content : String) : List SinkAction :=
  match st.textMessages segmentId with
  | none => []
  | some msgId =>
    if content.isEmpty then []
    else
      let formatted := render content
      if st.lastContent segmentId = some formatted then []
      else if formatted.length ≤ limit then [.editMsg msgId formatted]
      else
        .delMsg msgId ::
          (chunksOf safe formatted.data).map (fun cs => .sendMsg (String.mk cs))

-- ===================== GroupBuffer (src/handlers/media-group.ts) =====================

/-- One pending media group: accumulated items, the originating context's
user and chat ids, and the shared caption. The status message and the timer
handle are transport- and timing-side state with no bearing on the buffered
data and are omitted; a timer firing is modelled as a `processGroup` call. -/
structure MediaGroup (T : Type) where
  items : List T
  fromId : Option Nat
  chatId : Option Nat
  caption : Option String

/-- The state of one media group buffer: the live pending map plus the rate
limiter's bucket map (consulted for the first item of each group). -/
structure BufState (T : Type) where
  pending : String → Option (MediaGroup T)
  rl : RLState

/-- An empty buffer. -/
def initBuf (T : Type) : BufState T :=
  ⟨fun _ => none, rlInit⟩

/-- `addToGroup(mediaGroupId, item, ctx, userId, ...)`: for a new group id,
admit through the rate limiter (dropping the item and creating nothing when
denied) and create the group from this first message's context; for an
existing group, append the item and adopt a truthy caption if the group has
none. Returns `true` when the item was buffered. -/
def addToGroup (cfg : RLConfig) (now : ℚ) (gid : String) (item : T)
    (uid : Nat) (chatId : Option Nat) (caption : Option String)
    (st : BufState T) : BufState T × Bool :=
  match st.pending gid with
  | none =>
    let rc := check cfg uid now st.rl
    if !rc.1.allowed then ({ st with rl := rc.2 }, false)
    else
      ({ pending := fun g => if g = gid
            then some ⟨[item], some uid, chatId, caption⟩
            else st.pending g,
         rl := rc.2 }, true)
  | some gr =>
    let caption' := if jsTruthyS caption && !jsTruthyS gr.caption then caption else gr.caption
    ({ st with pending := fun g => if g = gid
          then some ⟨gr.items ++ [item], gr.fromId, gr.chatId, caption'⟩
          else st.pending g }, true)

/-- `processGroup(groupId)`: remove the group from the live map first; a
missing group (or a falsy user or chat id on its context) produces no batch,
otherwise the batch callback receives the items, caption, user and chat id.
Returns the new state and the batch handed to the callback, if any. -/
def processGroup (gid : String) (st : BufState T) :
    BufState T × Option (List T × Option String × Nat × Nat) :=
  match st.pending gid with
  | none => (st, none)
  | some gr =>
    let st' : BufState T :=
      { st with pending := fun g => if g = gid then none else st.pending g }
    match gr.fromId, gr.chatId with
    | some u, some c =>
      if u = 0 ∨ c = 0 then (st', none)
      else (st', some (gr.items, gr.caption, u, c))
    | _, _ => (st', none)

/-- One buffer operation: an item arrival or a (timer-driven) group flush. -/
inductive GBOp (T : Type) where
  | add (now : ℚ) (gid : String) (item : T) (uid : Nat) (chatId : Option Nat)
        (caption : Option String)
  | proc (gid : String)

/-- Run a sequence of buffer operations, collecting the batches emitted by
`proc` steps, tagged with their group id. -/
def runGB (cfg : RLConfig) : List (GBOp T) → BufState T →
    BufState T × List (String × List T × Option String × Nat × Nat)
  | [], st => (st, [])
  | .add now gid item uid chat cap :: ops, st =>
    let st' := (addToGroup cfg now gid item uid chat cap st).1
    runGB cfg ops st'
  | .proc gid :: ops, st =>
    let pr := processGroup gid st
    let rest := runGB cfg ops pr.1
    (rest.1, (match pr.2 with
      | some b => [(gid, b)]
      | none => []) ++ rest.2)

/-- The data of one arrival for a fixed group id. -/
structure AddRec (T : Type) where
  item : T
  uid : Nat
  chatId : Option Nat
  caption : Option String

/-- The arrivals a trace makes for group id `gid`, in order. -/
def recsFor (gid : String) : List (GBOp T) → List (AddRec T)
  | [] => []
  | .add _ g item uid chat cap :: ops =>
    if g = gid then ⟨item, uid, chat, cap⟩ :: recsFor gid ops else recsFor gid ops
  | .proc _ :: ops => recsFor gid ops

/-- A trace never flushes group id `gid`. -/
def noProc (gid : String) : List (GBOp T) → Prop
  | [] => True
  | .add _ _ _ _ _ _ :: ops => noProc gid ops
  | .proc g :: ops => g ≠ gid ∧ noProc gid ops

/-- Fold one arrival into an optional group, mirroring the two `addToGroup`
branches (create on first arrival, append afterwards). -/
def buildGroup : Option (MediaGroup T) → AddRec T → Option (MediaGroup T)
  | none, r => some ⟨[r.item], some r.uid, r.chatId, r.caption⟩
  | some g, r =>
    some ⟨g.items ++ [r.item], g.fromId, g.chatId,
      if jsTruthyS r.caption && !jsTruthyS g.caption then r.caption else g.caption⟩

/-- The group a sequence of arrivals builds from nothing. -/
def groupFromRecs (rs : List (AddRec T)) : Option (MediaGroup T) :=
  rs.foldl buildGroup none

-- ===================== crash retry (src/handlers/assistant.ts) =====================

/-- The outcome of one `sendMessageStreaming` invocation as the handler's
catch block observes it: a response string or a stringified error. -/
inductive EngineResult where
  | success (resp : String)
  | failure (err : String)

/-- The user-visible and session-level actions of the handler's retry loop. -/
inductive AssistAction where
  | invoke (msg : String) (stateId : Nat)
  | deleteEphemeral (stateId : Nat)
  | auditOk (resp : String)
  | killSession
  | replyCrashRetry
  | replyStopped
  | replyError (err : String)
deriving DecidableEq

/-- `MAX_RETRIES` of `handleAssistantMessage`. -/
def MAX_RETRIES : Nat := 1

/-- The retry loop of `handleAssistantMessage` from a given attempt number:
invoke the engine with the message and a fresh `StreamingState` (identified
by the attempt number); on failure delete the attempt's ephemeral messages,
then either retry once after a crash-type error (`"exited with code"`),
or report a silent/noticed stop for an abort/cancel error (depending on the
consumed interrupt flag), or reply with a fatal error. -/
def retryLoop (engine : Nat → EngineResult) (msg : String) (interrupted : Bool) :
    Nat → List AssistAction
  | attempt =>
    AssistAction.invoke msg attempt ::
    match engine attempt with
    | .success r => [.auditOk r]
    | .failure e =>
      AssistAction.deleteEphemeral attempt ::
      if h : containsSub "exited with code" e ∧ attempt < MAX_RETRIES then
        AssistAction.killSession :: AssistAction.replyCrashRetry ::
          retryLoop engine msg interrupted (attempt + 1)
      else if containsSub "abort" e || containsSub "cancel" e then
        if interrupted then [] else [.replyStopped]
      else [.replyError e]
termination_by attempt => MAX_RETRIES + 1 - attempt
decreasing_by
  simp only [MAX_RETRIES] at *
  omega

-- ===================== Claim C1 =====================

/-- C1: if `stop()` is called while the session is Processing (the processing
flag set by `startProcessing`, no query running yet), it returns `"pending"`,
and the subsequent `sendMessageStreaming` call for that turn aborts with the
`"Query cancelled"` error before the engine is ever invoked. -/
theorem c1_stop_pending_cancels_before_engine (st : SessState)
    (h : st.isQueryRunning = false) :
    (stop (startProcessing st)).1 = StopResult.pending ∧
    (sendPreCheck (stop (startProcessing st)).2).1 =
      SendPhase.cancelledBeforeStart "Query cancelled" := by
  simp [stop, startProcessing, sendPreCheck, h]

/-- Witness for C1 at a concrete idle-but-processing session state. -/
theorem c1_witness :
    (stop (startProcessing ⟨false, false, false, false, false⟩)).1 = StopResult.pending ∧
    (sendPreCheck (stop (startProcessing ⟨false, false, false, false, false⟩)).2).1 =
      SendPhase.cancelledBeforeStart "Query cancelled" :=
  c1_stop_pending_cancels_before_engine ⟨false, false, false, false, false⟩ rfl

-- ===================== Claim C10 =====================

/-- C10 counterexample: user id `0` is contained in the non-empty allow-list
`[0]`, yet `isAuthorized` returns `false`, because the source treats a falsy
(zero) user id as undefined. -/
theorem c10_counterexample :
    isAuthorized (some 0) [0] = false ∧
    some 0 ≠ (none : Option Nat) ∧ ([0] : List Nat) ≠ [] ∧ 0 ∈ ([0] : List Nat) := by
  refine ⟨by decide, by decide, by decide, by decide⟩

/-- C10 amended: `isAuthorized(userId, allowedUsers)` returns true iff the
user id is defined and non-zero and the list contains it; in particular an
empty allow-list denies every user. -/
theorem c10_amended (userId : Option Nat) (allowedUsers : List Nat) :
    (isAuthorized userId allowedUsers = true ↔
      ∃ n, userId = some n ∧ n ≠ 0 ∧ n ∈ allowedUsers) ∧
    isAuthorized userId [] = false := by
  have main : ∀ (l : List Nat), isAuthorized userId l = true ↔
      ∃ n, userId = some n ∧ n ≠ 0 ∧ n ∈ l := by
    intro l
    match userId with
    | none => simp [isAuthorized, jsTruthyN]
    | some n =>
      by_cases hn : n = 0
      · subst hn
        simp [isAuthorized, jsTruthyN]
      · cases l with
        | nil => simp [isAuthorized, jsTruthyN, hn]
        | cons a as => simp [isAuthorized, jsTruthyN, hn, List.elem_iff]
  refine ⟨main allowedUsers, ?_⟩
  cases h' : isAuthorized userId [] with
  | false => rfl
  | true => exact absurd ((main []).mp h') (by simp)

-- ===================== Claim C9 =====================

/-- C9: `resumeLast` succeeds exactly when the file parses, carries a truthy
session identity, and its working directory is either absent (falsy) or equal
to the current one; on success it adopts the recorded identity, on failure it
adopts nothing. -/
theorem c9_resume_last (workingDir : String) (f : SessionFile) :
    ((resumeLast workingDir f).1 = true ↔
      ∃ d, f = SessionFile.parsed d ∧ jsTruthyS d.session_id = true ∧
        (jsTruthyS d.working_dir = false ∨ d.working_dir = some workingDir)) ∧
    (resumeLast workingDir f).2 =
      (if (resumeLast workingDir f).1 then sessionIdOf f else none) := by
  match f with
  | .missing => simp [resumeLast]
  | .unreadable => simp [resumeLast]
  | .parsed d =>
    refine ⟨?_, ?_⟩
    · simp only [resumeLast]
      split_ifs with h1 h2
      · simp only [Bool.false_eq_true, false_iff]
        rintro ⟨d', heq, h3, _⟩
        cases heq
        rw [h1] at h3
        exact Bool.false_ne_true h3
      · simp only [Bool.false_eq_true, false_iff]
        rintro ⟨d', heq, _, h4⟩
        cases heq
        rcases h4 with h4 | h4
        · rw [h4] at h2
          exact Bool.false_ne_true h2.1
        · exact h2.2 h4
      · simp only [true_iff]
        refine ⟨d, rfl, by simpa using h1, ?_⟩
        by_cases h3 : jsTruthyS d.working_dir
        · right
          by_contra hne
          exact h2 ⟨h3, hne⟩
        · left
          simpa using h3
    · simp only [resumeLast]
      split_ifs <;> simp_all [sessionIdOf]

/-- Witness for C9: a parsed record with a matching working directory and a
non-empty identity resumes successfully and adopts that identity. -/
theorem c9_witness :
    (resumeLast "/vault" (SessionFile.parsed ⟨some "abc12345", some "/vault", "t"⟩)).1 = true ∧
    (resumeLast "/vault" (SessionFile.parsed ⟨some "abc12345", some "/vault", "t"⟩)).2 =
      some "abc12345" := by
  have h := c9_resume_last "/vault" (SessionFile.parsed ⟨some "abc12345", some "/vault", "t"⟩)
  refine ⟨h.1.mpr ⟨_, rfl, by decide, Or.inr rfl⟩, ?_⟩
  rw [h.2, h.1.mpr ⟨_, rfl, by decide, Or.inr rfl⟩]
  rfl

-- ===================== Claim C2 =====================

/-- C2 counterexample: with temp root `/tmp` and no allowed roots, the path
`/tmpevil` (resolving to itself) is accepted by `isPathAllowed`, although it
neither equals the temp root nor has `/tmp/` as a prefix: the source tests
temp roots with a plain string prefix, not the claimed containment. -/
theorem c2_counterexample :
    isPathAllowed fsNone "/root" "/" ["/tmp"] [] "/tmpevil" = true ∧
    specRootContains "/tmp" (resolvedOf fsNone "/root" "/" "/tmpevil") = false := by
  constructor <;> decide

/-- C2 amended: `isPathAllowed` is true iff the resolved path (after home
expansion, normalization, and symlink resolution with non-symlink fallback)
starts with some temp root as a plain string prefix, or is contained in some
resolved allowed root in the exact-match-or-root-slash-prefix sense. -/
theorem c2_amended (fs : String → Option String) (home cwd : String)
    (tempPaths allowedPaths : List String) (path : String) :
    isPathAllowed fs home cwd tempPaths allowedPaths path = true ↔
      (∃ t ∈ tempPaths, startsWithStr (resolvedOf fs home cwd path) t = true) ∨
      (∃ a ∈ allowedPaths,
        specRootContains (resolvePath cwd a) (resolvedOf fs home cwd path) = true) := by
  simp [isPathAllowed, specRootContains, List.any_eq_true, resolvedOf]

-- ===================== Claim C3 =====================

/-- C5: the source does not clamp the wall-clock delta, so a clock that moves
backwards drives a bucket's token count negative, violating the claimed
`0 ≤ tokens` invariant. With `maxTokens = 2`, `window = 2` (refill rate 1
token per second), the calls at times `0, 0, 10000, 0` milliseconds leave
`tokens = 1 - 10 = -9`. -/
theorem c5_negative_tokens :
    tokensEnd (runBucket ⟨true, 2, 2⟩ [0, 0, 10000, 0] none).2 0 = -9 ∧
    tokensEnd (runBucket ⟨true, 2, 2⟩ [0, 0, 10000, 0] none).2 0 < 0 := by
  constructor <;> decide

-- ===================== Claim C7 =====================

/-- With enough fuel, concatenating the chunks restores the original list. -/
theorem chunksOfAux_flatten (n : Nat) (hn : 0 < n) :
    ∀ (fuel : Nat) (cs : List Char), cs.length ≤ fuel →
      (chunksOfAux n fuel cs).flatten = cs := by
  intro fuel
  induction fuel with
  | zero =>
    intro cs h
    have : cs = [] := List.eq_nil_of_length_eq_zero (Nat.le_zero.mp h)
    subst this
    rfl
  | succ f ih =>
    intro cs h
    cases cs with
    | nil => rfl
    | cons c cs' =>
      show ((c :: cs').take n :: chunksOfAux n f ((c :: cs').drop n)).flatten = c :: cs'
      rw [List.flatten_cons, ih]
      · exact List.take_append_drop n (c :: cs')
      · simp only [List.length_drop, List.length_cons]
        simp only [List.length_cons] at h
        omega

/-- Every chunk has length at most `n`. -/
theorem chunksOfAux_length_le (n : Nat) :
    ∀ (fuel : Nat) (cs c : List Char), c ∈ chunksOfAux n fuel cs → c.length ≤ n := by
  intro fuel
  induction fuel with
  | zero =>
    intro cs c h
    simp only [chunksOfAux] at h
    cases h
  | succ f ih =>
    intro cs c h
    cases cs with
    | nil =>
      simp only [chunksOfAux] at h
      cases h
    | cons x xs =>
      have h' : c = (x :: xs).take n ∨ c ∈ chunksOfAux n f ((x :: xs).drop n) :=
        List.mem_cons.mp h
      rcases h' with h' | h'
      · subst h'
        simp only [List.length_take]
        exact Nat.min_le_left n (x :: xs).length
      · exact ih _ _ h'

/-- A list longer than `n` splits into at least two chunks. -/
theorem chunksOf_two_le (n : Nat) (cs : List Char) (hn : 0 < n) (h : n < cs.length) :
    2 ≤ (chunksOf n cs).length := by
  unfold chunksOf
  cases cs with
  | nil => simp at h
  | cons x xs =>
    have hxs : 1 ≤ xs.length := by
      simp only [List.length_cons] at h
      omega
    have hfuel : (x :: xs).length = xs.length + 1 := by simp
    rw [hfuel]
    show 2 ≤ ((x :: xs).take n :: chunksOfAux n xs.length ((x :: xs).drop n)).length
    have hlen : 0 < ((x :: xs).drop n).length := by
      simp only [List.length_drop]
      simp only [List.length_cons] at h
      omega
    cases hd : (x :: xs).drop n with
    | nil =>
      rw [hd] at hlen
      cases hlen
    | cons y ys =>
      have hx : xs.length = (xs.length - 1) + 1 := by omega
      rw [hx]
      show 2 ≤ (((x :: xs).take n) ::
        ((y :: ys).take n :: chunksOfAux n (xs.length - 1) ((y :: ys).drop n))).length
      simp only [List.length_cons]
      omega

/-- C7: a `segment_end` whose rendered content differs from the last render
performs a single final edit when the content fits in one display unit, and
otherwise deletes the in-progress unit and re-sends the content as at least
two bounded chunks whose in-order concatenation is exactly the rendered
content. -/
theorem c7_segment_end_actions (limit safe : Nat) (render : String → String)
    (st : StreamingStateM) (segmentId msgId : Nat) (content : String)
    (hsafe : 0 < safe) (hcap : safe ≤ limit)
    (hmsg : st.textMessages segmentId = some msgId)
    (hc : content ≠ "")
    (hdiff : st.lastContent segmentId ≠ some (render content)) :
    ((render content).length ≤ limit →
      segmentEndActions limit safe render st segmentId content =
        [SinkAction.editMsg msgId (render content)]) ∧
    (limit < (render content).length →
      segmentEndActions limit safe render st segmentId content =
        SinkAction.delMsg msgId ::
          (chunksOf safe (render content).data).map
            (fun cs => SinkAction.sendMsg (String.mk cs)) ∧
      (chunksOf safe (render content).data).flatten = (render content).data ∧
      (∀ c ∈ chunksOf safe (render content).data, c.length ≤ safe) ∧
      2 ≤ (chunksOf safe (render content).data).length) := by
  have hempty : content.isEmpty = false := by
    cases he : content.isEmpty with
    | false => rfl
    | true => exact absurd ((String.isEmpty_iff content).mp he) hc
  constructor
  · intro hfit
    simp [segmentEndActions, hmsg, hempty, hdiff, hfit]
  · intro hbig
    have hnotfit : ¬ (render content).length ≤ limit := Nat.not_le.mpr hbig
    refine ⟨?_, ?_, ?_, ?_⟩
    · simp [segmentEndActions, hmsg, hempty, hdiff, hnotfit]
    · exact chunksOfAux_flatten safe hsafe _ _ (Nat.le_refl _)
    · intro c hcmem
      exact chunksOfAux_length_le safe _ _ c hcmem
    · apply chunksOf_two_le safe _ hsafe
      have : (render content).length = (render content).data.length := rfl
      omega

/-- Witness for C7 at concrete sizes (limit 5, safe chunk size 3): a
9-character rendered content is deleted and re-sent in bounded chunks that
concatenate back exactly, and a 4-character one is edited in place. -/
theorem c7_witness :
    (((fun s : String => s) "abcdefghi").length ≤ 5 →
      segmentEndActions 5 3 (fun s => s)
        ⟨fun i => if i = 0 then some 7 else none, fun _ => none⟩ 0 "abcdefghi" =
        [SinkAction.editMsg 7 "abcdefghi"]) ∧
    (5 < (((fun s : String => s) "abcdefghi")).length →
      segmentEndActions 5 3 (fun s => s)
        ⟨fun i => if i = 0 then some 7 else none, fun _ => none⟩ 0 "abcdefghi" =
        SinkAction.delMsg 7 ::
          (chunksOf 3 ("abcdefghi" : String).data).map
            (fun cs => SinkAction.sendMsg (String.mk cs)) ∧
      (chunksOf 3 ("abcdefghi" : String).data).flatten = ("abcdefghi" : String).data ∧
      (∀ c ∈ chunksOf 3 ("abcdefghi" : String).data, c.length ≤ 3) ∧
      2 ≤ (chunksOf 3 ("abcdefghi" : String).data).length) :=
  c7_segment_end_actions 5 3 (fun s => s)
    ⟨fun i => if i = 0 then some 7 else none, fun _ => none⟩ 0 7 "abcdefghi"
    (by decide) (by decide) (by decide) (by decide) (by decide)

-- ===================== Claim C8 =====================

/-- C8: a first crash-type engine failure (error string containing
`exited with code`) leads to exactly one retry with the same message and a
fresh per-attempt streaming state, after the failed attempt's ephemeral
messages are deleted and the session is reset; a second crash-type failure
is surfaced as a fatal error reply and no third invocation happens. -/
theorem c8_crash_retry (engine : Nat → EngineResult) (msg : String)
    (interrupted : Bool) (e0 e1 : String)
    (h0 : engine 0 = EngineResult.failure e0)
    (hc0 : containsSub "exited with code" e0 = true)
    (h1 : engine 1 = EngineResult.failure e1)
    (hc1 : containsSub "exited with code" e1 = true)
    (ha : containsSub "abort" e1 = false)
    (hcn : containsSub "cancel" e1 = false) :
    retryLoop engine msg interrupted 0 =
      [AssistAction.invoke msg 0, AssistAction.deleteEphemeral 0,
       AssistAction.killSession, AssistAction.replyCrashRetry,
       AssistAction.invoke msg 1, AssistAction.deleteEphemeral 1,
       AssistAction.replyError e1] := by
  rw [retryLoop, retryLoop]
  simp [h0, h1, hc0, hc1, ha, hcn, MAX_RETRIES]

/-- Witness for C8 with a concrete crashing engine. -/
theorem c8_witness :
    retryLoop (fun _ => EngineResult.failure "Error: process exited with code 1")
      "hello" false 0 =
      [AssistAction.invoke "hello" 0, AssistAction.deleteEphemeral 0,
       AssistAction.killSession, AssistAction.replyCrashRetry,
       AssistAction.invoke "hello" 1, AssistAction.deleteEphemeral 1,
       AssistAction.replyError "Error: process exited with code 1"] :=
  c8_crash_retry (fun _ => EngineResult.failure "Error: process exited with code 1")
    "hello" false "Error: process exited with code 1" "Error: process exited with code 1"
    rfl (by decide) rfl (by decide) (by decide) (by decide)

-- ===================== Claim C6 =====================

/-- The pending entry for `gid` after running a trace that never flushes
`gid` is the fold of `gid`'s arrivals over the initial entry (rate limiting
disabled, so first arrivals are always admitted). -/
theorem runGB_lookup {T : Type} (cfg : RLConfig) (hE : cfg.enabled = false) (gid : String) :
    ∀ (trace : List (GBOp T)) (st : BufState T), noProc gid trace →
      ((runGB cfg trace st).1).pending gid =
        (recsFor gid trace).foldl buildGroup (st.pending gid) := by
  intro trace
  induction trace with
  | nil =>
    intro st h
    rfl
  | cons op ops ih =>
    intro st h
    cases op with
    | add now g item uid chat cap =>
      have hstep : ((addToGroup cfg now g item uid chat cap st).1).pending gid =
          if g = gid then buildGroup (st.pending gid) ⟨item, uid, chat, cap⟩
          else st.pending gid := by
        by_cases hg : g = gid
        · subst hg
          cases hp : st.pending g with
          | none => simp [addToGroup, hp, check, hE, buildGroup]
          | some gr => simp [addToGroup, hp, buildGroup]
        · have hgid : ¬ gid = g := fun hh => hg hh.symm
          rw [if_neg hg]
          cases hp : st.pending g with
          | none => simp [addToGroup, hp, check, hE, hgid]
          | some gr => simp [addToGroup, hp, hgid]
      show ((runGB cfg ops (addToGroup cfg now g item uid chat cap st).1).1).pending gid = _
      rw [ih _ h, hstep]
      by_cases hg : g = gid
      · subst hg
        simp [recsFor]
      · simp [recsFor, hg]
    | proc g =>
      obtain ⟨hne, h'⟩ := h
      have hgid : ¬ gid = g := fun hh => hne hh.symm
      have hstep : ((processGroup g st).1).pending gid = st.pending gid := by
        cases hp : st.pending g with
        | none => simp [processGroup, hp]
        | some gr =>
          cases hf : gr.fromId with
          | none => simp [processGroup, hp, hf, hgid]
          | some u =>
            cases hc : gr.chatId with
            | none => simp [processGroup, hp, hf, hc, hgid]
            | some c =>
              by_cases hz : u = 0 ∨ c = 0 <;>
                simp [processGroup, hp, hf, hc, hz, hgid]
      show ((runGB cfg ops (processGroup g st).1).1).pending gid = _
      rw [ih _ h', hstep]
      rfl

/-- Folding arrivals over an existing group appends their items in order and
preserves the originating ids. -/
theorem foldl_buildGroup_some {T : Type} :
    ∀ (rs : List (AddRec T)) (g : MediaGroup T), ∃ cap,
      rs.foldl buildGroup (some g) =
        some ⟨g.items ++ rs.map (fun r => r.item), g.fromId, g.chatId, cap⟩ := by
  intro rs
  induction rs with
  | nil =>
    intro g
    exact ⟨g.caption, by cases g; simp⟩
  | cons r rs ih =>
    intro g
    obtain ⟨cap, hcap⟩ := ih ⟨g.items ++ [r.item], g.fromId, g.chatId,
      if jsTruthyS r.caption && !jsTruthyS g.caption then r.caption else g.caption⟩
    refine ⟨cap, ?_⟩
    show rs.foldl buildGroup (buildGroup (some g) r) = _
    rw [show buildGroup (some g) r = some ⟨g.items ++ [r.item], g.fromId, g.chatId,
      if jsTruthyS r.caption && !jsTruthyS g.caption then r.caption else g.caption⟩ from rfl]
    rw [hcap]
    simp

/-- A flush removes the group entry, whether or not one was present. -/
theorem processGroup_clears {T : Type} (gid : String) (st : BufState T) :
    ((processGroup gid st).1).pending gid = none := by
  cases hp : st.pending gid with
  | none => simp [processGroup, hp]
  | some gr =>
    cases hf : gr.fromId with
    | none => simp [processGroup, hp, hf]
    | some u =>
      cases hc : gr.chatId with
      | none => simp [processGroup, hp, hf, hc]
      | some c =>
        by_cases hz : u = 0 ∨ c = 0 <;> simp [processGroup, hp, hf, hc, hz]

/-- A flush of an absent group emits nothing. -/
theorem processGroup_none {T : Type} (gid : String) (st : BufState T)
    (h : st.pending gid = none) : (processGroup gid st).2 = none := by
  simp [processGroup, h]

/-- C6: after any trace of arrivals (and flushes of other groups) that never
flushes `gid`, flushing `gid` hands the callback exactly the items that
arrived under `gid`, in arrival order, with the first arrival's user and chat
ids; the entry is removed, so an immediately repeated flush (a racing timer)
emits nothing. Rate limiting is disabled so that every first arrival is
admitted. -/
theorem c6_group_batch_once {T : Type} (cfg : RLConfig) (hE : cfg.enabled = false)
    (gid : String) (trace : List (GBOp T)) (hnp : noProc gid trace)
    (r0 : AddRec T) (rs : List (AddRec T))
    (hrecs : recsFor gid trace = r0 :: rs)
    (c0 : Nat) (hc0 : r0.chatId = some c0)
    (hu : r0.uid ≠ 0) (hc0z : c0 ≠ 0) :
    (∃ cap, (processGroup gid (runGB cfg trace (initBuf T)).1).2 =
        some ((recsFor gid trace).map (fun r => r.item), cap, r0.uid, c0)) ∧
    (processGroup gid (processGroup gid (runGB cfg trace (initBuf T)).1).1).2 = none := by
  have hlook := runGB_lookup cfg hE gid trace (initBuf T) hnp
  rw [hrecs] at hlook
  have hinit : (initBuf T).pending gid = none := rfl
  rw [hinit] at hlook
  have hbuild : (r0 :: rs).foldl buildGroup none =
      rs.foldl buildGroup (some ⟨[r0.item], some r0.uid, r0.chatId, r0.caption⟩) := rfl
  obtain ⟨cap, hcap⟩ :=
    foldl_buildGroup_some rs (⟨[r0.item], some r0.uid, r0.chatId, r0.caption⟩ : MediaGroup T)
  rw [hbuild, hcap] at hlook
  constructor
  · refine ⟨cap, ?_⟩
    have hz : ¬ (r0.uid = 0 ∨ c0 = 0) := by
      rintro (h | h)
      · exact hu h
      · exact hc0z h
    simp [processGroup, hlook, hc0, hz, hrecs]
  · exact processGroup_none gid _ (processGroup_clears gid _)

/-- Witness for C6: three arrivals for group `g` interleaved with one for
group `h`; flushing `g` yields exactly the three `g` items in order, and a
second flush yields nothing. -/
theorem c6_witness :
    (∃ cap, (processGroup "g" (runGB ⟨false, 2, 2⟩
        [GBOp.add 0 "g" 10 5 (some 7) none,
         GBOp.add 0 "h" 99 6 (some 8) none,
         GBOp.add 0 "g" 20 5 (some 7) (some "cap"),
         GBOp.add 0 "g" 30 5 (some 7) none]
        (initBuf Nat)).1).2 =
      some ((recsFor "g"
        [GBOp.add 0 "g" 10 5 (some 7) none,
         GBOp.add 0 "h" 99 6 (some 8) none,
         GBOp.add 0 "g" 20 5 (some 7) (some "cap"),
         GBOp.add 0 "g" 30 5 (some 7) none]).map (fun r => r.item), cap, 5, 7)) ∧
    (processGroup "g" (processGroup "g" (runGB ⟨false, 2, 2⟩
        [GBOp.add 0 "g" 10 5 (some 7) none,
         GBOp.add 0 "h" 99 6 (some 8) none,
         GBOp.add 0 "g" 20 5 (some 7) (some "cap"),
         GBOp.add 0 "g" 30 5 (some 7) none]
        (initBuf Nat)).1).1).2 = none :=
  c6_group_batch_once ⟨false, 2, 2⟩ rfl "g"
    [GBOp.add 0 "g" 10 5 (some 7) none,
     GBOp.add 0 "h" 99 6 (some 8) none,
     GBOp.add 0 "g" 20 5 (some 7) (some "cap"),
     GBOp.add 0 "g" 30 5 (some 7) none]
    (by simp [noProc]) ⟨10, 5, some 7, none⟩
    [⟨20, 5, some 7, some "cap"⟩, ⟨30, 5, some 7, none⟩]
    (by rfl) 7 rfl (by decide) (by decide)

-- ===================== Claim C4 =====================

/-- `jsMin` is bounded by its first argument. -/
theorem jsMin_le_left (a b : ℚ) : jsMin a b ≤ a := by
  unfold jsMin
  split
  · exact le_refl a
  · linarith [lt_of_not_le (by assumption : ¬ a ≤ b)]

/-- `jsMin` is bounded by its second argument. -/
theorem jsMin_le_right (a b : ℚ) : jsMin a b ≤ b := by
  unfold jsMin
  split
  · assumption
  · exact le_refl b

/-- `jsMin` of two nonnegative values is nonnegative. -/
theorem jsMin_nonneg (a b : ℚ) (ha : 0 ≤ a) (hb : 0 ≤ b) : 0 ≤ jsMin a b := by
  unfold jsMin
  split <;> assumption

/-- The refill never exceeds the bucket capacity. -/
theorem refillTokens_le_max (cfg : RLConfig) (now : ℚ) (b : Bucket) :
    refillTokens cfg now b ≤ cfg.maxTokens :=
  jsMin_le_left _ _

/-- The refill never exceeds the uncapped inflow. -/
theorem refillTokens_le_flow (cfg : RLConfig) (now : ℚ) (b : Bucket) :
    refillTokens cfg now b ≤ b.tokens + ((now - b.lastUpdate) / 1000) * rlRate cfg :=
  jsMin_le_right _ _

/-- A `check` stamps the bucket with the current time. -/
theorem checkBucket_last (cfg : RLConfig) (now : ℚ) (b : Option Bucket) :
    (checkBucket cfg now b).2.lastUpdate = now := by
  unfold checkBucket
  split <;> rfl

/-- Consumed cost plus remaining tokens never exceed the capacity. -/
theorem checkBucket_cap (cfg : RLConfig) (now : ℚ) (b : Option Bucket) :
    costOf (checkBucket cfg now b).1 + (checkBucket cfg now b).2.tokens ≤ cfg.maxTokens := by
  have hle := refillTokens_le_max cfg now (b.getD ⟨cfg.maxTokens, now⟩)
  unfold checkBucket
  split
  · simpa [costOf] using hle
  · simpa [costOf] using hle

/-- Consumed cost plus remaining tokens never exceed the inflow. -/
theorem checkBucket_flow (cfg : RLConfig) (now : ℚ) (b0 : Bucket) :
    costOf (checkBucket cfg now (some b0)).1 + (checkBucket cfg now (some b0)).2.tokens ≤
      b0.tokens + ((now - b0.lastUpdate) / 1000) * rlRate cfg := by
  have hle := refillTokens_le_flow cfg now b0
  unfold checkBucket
  split
  · simpa [costOf] using hle
  · simpa [costOf] using hle

/-- With a forward-moving clock and nonnegative state, tokens stay
nonnegative across one call. -/
theorem checkBucket_nonneg (cfg : RLConfig) (now : ℚ) (b : Option Bucket)
    (hm : 0 ≤ cfg.maxTokens) (hr : 0 ≤ rlRate cfg)
    (h0 : 0 ≤ (b.getD ⟨cfg.maxTokens, now⟩).tokens)
    (hl : (b.getD ⟨cfg.maxTokens, now⟩).lastUpdate ≤ now) :
    0 ≤ (checkBucket cfg now b).2.tokens := by
  have hx : 0 ≤ (b.getD ⟨cfg.maxTokens, now⟩).tokens +
      ((now - (b.getD ⟨cfg.maxTokens, now⟩).lastUpdate) / 1000) * rlRate cfg := by
    have : (0 : ℚ) ≤ ((now - (b.getD ⟨cfg.maxTokens, now⟩).lastUpdate) / 1000) * rlRate cfg :=
      mul_nonneg (div_nonneg (by linarith) (by norm_num)) hr
    linarith
  have hmin : 0 ≤ refillTokens cfg now (b.getD ⟨cfg.maxTokens, now⟩) :=
    jsMin_nonneg _ _ hm hx
  unfold checkBucket
  split
  · have h1 : 1 ≤ refillTokens cfg now (b.getD ⟨cfg.maxTokens, now⟩) := by assumption
    simp only
    linarith
  · simpa using hmin

/-- Flow bound over a run: the number of admissions plus the final tokens is
bounded by the initial tokens plus the inflow over the spanned time. -/
theorem runBucketB_flow (cfg : RLConfig) (hr : 0 ≤ rlRate cfg) :
    ∀ (ts : List ℚ) (b : Bucket) (hi : ℚ),
      (∀ t ∈ ts, b.lastUpdate ≤ t) → List.Pairwise (· ≤ ·) ts → (∀ t ∈ ts, t ≤ hi) →
      b.lastUpdate ≤ hi →
      countQ (runBucketB cfg ts b).1 + (runBucketB cfg ts b).2.tokens ≤
        b.tokens + ((hi - b.lastUpdate) / 1000) * rlRate cfg := by
  intro ts
  induction ts with
  | nil =>
    intro b hi _ _ _ hbh
    have : (0 : ℚ) ≤ ((hi - b.lastUpdate) / 1000) * rlRate cfg :=
      mul_nonneg (div_nonneg (by linarith) (by norm_num)) hr
    show (0 : ℚ) + b.tokens ≤ _
    linarith
  | cons t ts ih =>
    intro b hi hfirst hpw hhi hbh
    have hbt : b.lastUpdate ≤ t := hfirst t (List.mem_cons_self t ts)
    have hthi : t ≤ hi := hhi t (List.mem_cons_self t ts)
    have hpw' := List.pairwise_cons.mp hpw
    have hflow := checkBucket_flow cfg t b
    have hlast1 : (checkBucket cfg t (some b)).2.lastUpdate = t := checkBucket_last cfg t _
    have hih := ih (checkBucket cfg t (some b)).2 hi
      (by
        intro x hx
        rw [hlast1]
        exact hpw'.1 x hx)
      hpw'.2
      (by
        intro x hx
        exact hhi x (List.mem_cons_of_mem t hx))
      (by
        rw [hlast1]
        exact hthi)
    have hsplit : countQ (runBucketB cfg (t :: ts) b).1 =
        costOf (checkBucket cfg t (some b)).1 +
          countQ (runBucketB cfg ts (checkBucket cfg t (some b)).2).1 := by
      show (if (checkBucket cfg t (some b)).1.allowed then (1 : ℚ) else 0) + _ = _
      rfl
    have hend : (runBucketB cfg (t :: ts) b).2 =
        (runBucketB cfg ts (checkBucket cfg t (some b)).2).2 := rfl
    rw [hsplit, hend]
    rw [hlast1] at hih
    have hring : ((t - b.lastUpdate) / 1000) * rlRate cfg +
        ((hi - t) / 1000) * rlRate cfg = ((hi - b.lastUpdate) / 1000) * rlRate cfg := by
      ring
    linarith

/-- Nonnegativity of tokens over a run with a forward-moving clock. -/
theorem runBucketB_nonneg (cfg : RLConfig) (hm : 0 ≤ cfg.maxTokens) (hr : 0 ≤ rlRate cfg) :
    ∀ (ts : List ℚ) (b : Bucket), 0 ≤ b.tokens → (∀ t ∈ ts, b.lastUpdate ≤ t) →
      List.Pairwise (· ≤ ·) ts → 0 ≤ (runBucketB cfg ts b).2.tokens := by
  intro ts
  induction ts with
  | nil =>
    intro b h0 _ _
    exact h0
  | cons t ts ih =>
    intro b h0 hfirst hpw
    have hbt : b.lastUpdate ≤ t := hfirst t (List.mem_cons_self t ts)
    have hpw' := List.pairwise_cons.mp hpw
    have hstep : 0 ≤ (checkBucket cfg t (some b)).2.tokens :=
      checkBucket_nonneg cfg t (some b) hm hr (by simpa using h0) (by simpa using hbt)
    have hlast1 : (checkBucket cfg t (some b)).2.lastUpdate = t := checkBucket_last cfg t _
    exact ih (checkBucket cfg t (some b)).2 hstep
      (by
        intro x hx
        rw [hlast1]
        exact hpw'.1 x hx)
      hpw'.2

/-- The final timestamp of a run is bounded by any bound on the call times. -/
theorem runBucketB_last_le (cfg : RLConfig) :
    ∀ (ts : List ℚ) (b : Bucket) (x : ℚ), b.lastUpdate ≤ x → (∀ t ∈ ts, t ≤ x) →
      (runBucketB cfg ts b).2.lastUpdate ≤ x := by
  intro ts
  induction ts with
  | nil =>
    intro b x hb _
    exact hb
  | cons t ts ih =>
    intro b x hb hts
    have hlast1 : (checkBucket cfg t (some b)).2.lastUpdate = t := checkBucket_last cfg t _
    exact ih (checkBucket cfg t (some b)).2 x
      (by
        rw [hlast1]
        exact hts t (List.mem_cons_self t ts))
      (by
        intro y hy
        exact hts y (List.mem_cons_of_mem t hy))

/-- After any prefix run from an empty bucket map entry under a sorted clock,
the (defaulted) bucket is nonnegative and stamped no later than the next
call. -/
theorem runBucket_pre_ok (cfg : RLConfig) (hm : 0 ≤ cfg.maxTokens) (hr : 0 ≤ rlRate cfg)
    (pre : List ℚ) (t0 : ℚ)
    (hpw : List.Pairwise (· ≤ ·) (pre ++ [t0])) :
    0 ≤ (((runBucket cfg pre none).2).getD ⟨cfg.maxTokens, t0⟩).tokens ∧
    (((runBucket cfg pre none).2).getD ⟨cfg.maxTokens, t0⟩).lastUpdate ≤ t0 := by
  cases pre with
  | nil => exact ⟨hm, le_refl t0⟩
  | cons p ps =>
    have hpw' := List.pairwise_cons.mp hpw
    have hpall : ∀ x ∈ ps ++ [t0], p ≤ x := hpw'.1
    have hps : List.Pairwise (· ≤ ·) ps :=
      (List.pairwise_append.mp hpw'.2).1
    have hps_t0 : ∀ x ∈ ps, x ≤ t0 := by
      intro x hx
      exact (List.pairwise_append.mp hpw'.2).2.2 x hx t0 (List.mem_singleton_self t0)
    have hb1last : (checkBucket cfg p none).2.lastUpdate = p := checkBucket_last cfg p _
    have hb1nn : 0 ≤ (checkBucket cfg p none).2.tokens :=
      checkBucket_nonneg cfg p none hm hr (by simpa using hm) (by simp)
    have hres : (runBucket cfg (p :: ps) none).2 =
        some (runBucketB cfg ps (checkBucket cfg p none).2).2 := rfl
    rw [hres]
    constructor
    · exact runBucketB_nonneg cfg hm hr ps (checkBucket cfg p none).2 hb1nn
        (by
          intro x hx
          rw [hb1last]
          exact hpall x (List.mem_append_left _ hx))
        hps
    · exact runBucketB_last_le cfg ps (checkBucket cfg p none).2 t0
        (by
          rw [hb1last]
          exact hpall t0 (List.mem_append_right _ (List.mem_singleton_self t0)))
        hps_t0

/-- C4 amended: (a) `check` is the per-identity bucket update and touches no
other identity's bucket; (b) within any closed rolling window of
`windowSeconds`, at most `2 * maxTokens` calls are allowed — the token
bucket admits up to a full burst plus a full window refill, not `maxTokens`;
(c) every denied call reports `retryAfter = (1 - tokens) / refillRate`, and a
further check after exactly that wait is allowed. -/
theorem c4_rate_limiter_amended (cfg : RLConfig) (hE : cfg.enabled = true)
    (hM : 1 ≤ cfg.maxTokens) (hW : 0 < cfg.window) :
    (∀ (uid : Nat) (now : ℚ) (st : RLState),
        (check cfg uid now st).1 = (checkBucket cfg now (st uid)).1 ∧
        (check cfg uid now st).2 uid = some (checkBucket cfg now (st uid)).2 ∧
        (∀ uid2, uid2 ≠ uid → (check cfg uid now st).2 uid2 = st uid2)) ∧
    (∀ (pre : List ℚ) (t0 : ℚ) (mid : List ℚ),
        List.Pairwise (· ≤ ·) (pre ++ t0 :: mid) →
        (∀ t ∈ mid, t ≤ t0 + cfg.window * 1000) →
        countQ (runBucket cfg (t0 :: mid) (runBucket cfg pre none).2).1 ≤
          2 * cfg.maxTokens) ∧
    (∀ (now : ℚ) (b : Option Bucket) (ra : ℚ),
        (checkBucket cfg now b).1.allowed = false →
        (checkBucket cfg now b).1.retryAfter = some ra →
        ra = (1 - (checkBucket cfg now b).2.tokens) / rlRate cfg ∧
        (checkBucket cfg (now + ra * 1000) (some (checkBucket cfg now b).2)).1.allowed
          = true) := by
  have hm0 : (0 : ℚ) ≤ cfg.maxTokens := by linarith
  have hrpos : 0 < rlRate cfg := div_pos (by linarith) hW
  have hr : (0 : ℚ) ≤ rlRate cfg := le_of_lt hrpos
  refine ⟨?_, ?_, ?_⟩
  · intro uid now st
    refine ⟨by simp [check, hE], by simp [check, hE], ?_⟩
    intro uid2 hne
    simp [check, hE, hne]
  · intro pre t0 mid hpw hspan
    have happ := List.pairwise_append.mp hpw
    have hcons := List.pairwise_cons.mp happ.2.1
    have hpw10 : List.Pairwise (· ≤ ·) (pre ++ [t0]) := by
      apply List.pairwise_append.mpr
      refine ⟨happ.1, List.pairwise_singleton _ _, ?_⟩
      intro x hx y hy
      rw [List.mem_singleton] at hy
      subst hy
      exact happ.2.2 x hx _ (List.mem_cons_self _ mid)
    have hpre := runBucket_pre_ok cfg hm0 hr pre t0 hpw10
    have hcap := checkBucket_cap cfg t0 ((runBucket cfg pre none).2)
    have hb1last : (checkBucket cfg t0 ((runBucket cfg pre none).2)).2.lastUpdate = t0 :=
      checkBucket_last cfg t0 _
    have hb1nn : 0 ≤ (checkBucket cfg t0 ((runBucket cfg pre none).2)).2.tokens :=
      checkBucket_nonneg cfg t0 _ hm0 hr hpre.1 hpre.2
    have hwnn : (0 : ℚ) ≤ cfg.window * 1000 := by
      have := le_of_lt hW
      nlinarith
    have hflow := runBucketB_flow cfg hr mid
      (checkBucket cfg t0 ((runBucket cfg pre none).2)).2 (t0 + cfg.window * 1000)
      (by
        intro x hx
        rw [hb1last]
        exact hcons.1 x hx)
      hcons.2
      hspan
      (by
        rw [hb1last]
        linarith)
    have hnn := runBucketB_nonneg cfg hm0 hr mid
      (checkBucket cfg t0 ((runBucket cfg pre none).2)).2 hb1nn
      (by
        intro x hx
        rw [hb1last]
        exact hcons.1 x hx)
      hcons.2
    rw [hb1last] at hflow
    have hrate : ((t0 + cfg.window * 1000 - t0) / 1000) * rlRate cfg = cfg.maxTokens := by
      have hwne : cfg.window ≠ 0 := ne_of_gt hW
      field_simp [rlRate]
    rw [hrate] at hflow
    have hsplit : countQ (runBucket cfg (t0 :: mid) ((runBucket cfg pre none).2)).1 =
        costOf (checkBucket cfg t0 ((runBucket cfg pre none).2)).1 +
          countQ (runBucketB cfg mid
            (checkBucket cfg t0 ((runBucket cfg pre none).2)).2).1 := by
      show (if (checkBucket cfg t0 ((runBucket cfg pre none).2)).1.allowed
        then (1 : ℚ) else 0) + _ = _
      rfl
    rw [hsplit]
    linarith
  · intro now b ra hden hra
    by_cases h : 1 ≤ refillTokens cfg now (b.getD ⟨cfg.maxTokens, now⟩)
    · exfalso
      simp [checkBucket, h] at hden
    · have h2 : (checkBucket cfg now b).2 =
          ⟨refillTokens cfg now (b.getD ⟨cfg.maxTokens, now⟩), now⟩ := by
        simp [checkBucket, h]
      have h1 : (checkBucket cfg now b).1 =
          ⟨false, some ((1 - refillTokens cfg now (b.getD ⟨cfg.maxTokens, now⟩)) /
            rlRate cfg)⟩ := by
        simp [checkBucket, h]
      rw [h1] at hra
      have hraeq : ra =
          (1 - refillTokens cfg now (b.getD ⟨cfg.maxTokens, now⟩)) / rlRate cfg := by
        have := hra
        simp at this
        exact this.symm
      constructor
      · rw [h2]
        exact hraeq
      · rw [h2]
        have hx : refillTokens cfg now (b.getD ⟨cfg.maxTokens, now⟩) +
            ((now + ra * 1000 - now) / 1000) * rlRate cfg = 1 := by
          rw [hraeq]
          field_simp
          ring
        have h1le : 1 ≤ refillTokens cfg (now + ra * 1000)
            ((some (⟨refillTokens cfg now (b.getD ⟨cfg.maxTokens, now⟩), now⟩ : Bucket)).getD
              ⟨cfg.maxTokens, now + ra * 1000⟩) := by
          simp only [Option.getD_some]
          show 1 ≤ jsMin cfg.maxTokens
            (refillTokens cfg now (b.getD ⟨cfg.maxTokens, now⟩) +
              ((now + ra * 1000 - now) / 1000) * rlRate cfg)
          rw [hx]
          unfold jsMin
          split <;> linarith
        unfold checkBucket
        rw [if_pos h1le]

/-- C4 counterexample: with `maxTokens = 2` and a 2-second window (refill
rate 1 token/second), the calls at 0 ms, 0 ms and 1000 ms are all allowed:
three admissions inside one closed 2-second window, exceeding `maxTokens`. -/
theorem c4_counterexample :
    (runBucket ⟨true, 2, 2⟩ [0, 0, 1000] none).1 = [true, true, true] ∧
    countQ (runBucket ⟨true, 2, 2⟩ [0, 0, 1000] none).1 = 3 ∧
    (⟨true, 2, 2⟩ : RLConfig).maxTokens < 3 ∧
    (∀ t ∈ ([0, 0, 1000] : List ℚ), 0 ≤ t ∧ t ≤ 0 + (⟨true, 2, 2⟩ : RLConfig).window * 1000) := by
  refine ⟨by decide, by decide, by decide, by decide⟩

/-- Witness for C4 amended at `maxTokens = 2`, `window = 2`: the bridge at a
fresh state, the window bound for the burst `0, 0, 1000`, and the retry
promise for a denied call at 500 ms on an empty bucket. -/
theorem c4_witness :
    (check ⟨true, 2, 2⟩ 1 0 rlInit).1 = (checkBucket ⟨true, 2, 2⟩ 0 (rlInit 1)).1 ∧
    countQ (runBucket ⟨true, 2, 2⟩ [0, 0, 1000] (runBucket ⟨true, 2, 2⟩ [] none).2).1 ≤
      2 * (⟨true, 2, 2⟩ : RLConfig).maxTokens ∧
    ((1 : ℚ) / 2 =
        (1 - (checkBucket ⟨true, 2, 2⟩ 500 (some ⟨0, 0⟩)).2.tokens) / rlRate ⟨true, 2, 2⟩ ∧
      (checkBucket ⟨true, 2, 2⟩ (500 + (1 / 2) * 1000)
        (some (checkBucket ⟨true, 2, 2⟩ 500 (some ⟨0, 0⟩)).2)).1.allowed = true) :=
  ⟨((c4_rate_limiter_amended ⟨true, 2, 2⟩ rfl (by decide) (by decide)).1 1 0 rlInit).1,
   (c4_rate_limiter_amended ⟨true, 2, 2⟩ rfl (by decide) (by decide)).2.1 [] 0 [0, 1000]
     (by decide) (by decide),
   (c4_rate_limiter_amended ⟨true, 2, 2⟩ rfl (by decide) (by decide)).2.2 500 (some ⟨0, 0⟩)
     (1 / 2) (by decide) (by decide)⟩
